import Mathlib

/-!
Shallow embedding of the xbasic lexical front end (src/src/compiler/db_scan.c).

The scanner state is modelled as a record over a line buffer (`List Char`)
and a cursor position (`Nat`).  The C code reads characters through
`XGetC` (NUL-terminated buffer, end of list = end of buffer), with one
character of pushback implemented by decrementing the cursor.  All scanning
loops of the C code only move the cursor forward, so they are embedded as
structurally recursive functions on an explicit fuel argument; each public
wrapper instantiates the fuel with `line.length - pos`, which is always
sufficient because every loop iteration consumes at least one character.
Every fuel-exhaustion base case is defined to coincide with the
end-of-buffer behaviour of the corresponding C loop, so the wrappers agree
with the C functions on all inputs.

The non-local `longjmp` performed by `ParseError` is modelled by returning
`Except.error msg`.
-/

deriving instance DecidableEq for Except

namespace XBasic

/-- The named token kinds of the token enum used by db_scan.c (all kinds
except the single-character tokens). -/
inductive TokenKind where
  | T_NONE
  | T_REM | T_OPTION | T_INCLUDE | T_DEF | T_DIM | T_AS | T_IN | T_LET
  | T_IF | T_THEN | T_ELSE | T_SELECT | T_CASE | T_END | T_FOR | T_TO
  | T_STEP | T_NEXT | T_DO | T_WHILE | T_UNTIL | T_LOOP | T_GOTO | T_MOD
  | T_AND | T_OR | T_XOR | T_NOT | T_STOP | T_RETURN | T_INPUT | T_PRINT
  | T_ASM
  | T_END_DEF | T_END_IF | T_END_SELECT | T_END_ASM | T_ELSE_IF
  | T_DO_WHILE | T_DO_UNTIL | T_LOOP_WHILE | T_LOOP_UNTIL
  | T_LE | T_NE | T_GE | T_SHL | T_SHR
  | T_IDENTIFIER | T_NUMBER | T_STRING | T_EOL | T_EOF
  deriving DecidableEq

/-- A token of the scanner, mirroring the ints returned by the token
functions of db_scan.c: either one of the named enum kinds or a single
character token (the C code returns the character code itself),
represented by the `TCH` constructor. -/
inductive Token where
  | kw (k : TokenKind)
  | TCH (c : Char)
  deriving DecidableEq

@[match_pattern] def Token.T_NONE : Token := .kw .T_NONE

@[match_pattern] def Token.T_REM : Token := .kw .T_REM

@[match_pattern] def Token.T_OPTION : Token := .kw .T_OPTION

@[match_pattern] def Token.T_INCLUDE : Token := .kw .T_INCLUDE

@[match_pattern] def Token.T_DEF : Token := .kw .T_DEF

@[match_pattern] def Token.T_DIM : Token := .kw .T_DIM

@[match_pattern] def Token.T_AS : Token := .kw .T_AS

@[match_pattern] def Token.T_IN : Token := .kw .T_IN

@[match_pattern] def Token.T_LET : Token := .kw .T_LET

@[match_pattern] def Token.T_IF : Token := .kw .T_IF

@[match_pattern] def Token.T_THEN : Token := .kw .T_THEN

@[match_pattern] def Token.T_ELSE : Token := .kw .T_ELSE

@[match_pattern] def Token.T_SELECT : Token := .kw .T_SELECT

@[match_pattern] def Token.T_CASE : Token := .kw .T_CASE

@[match_pattern] def Token.T_END : Token := .kw .T_END

@[match_pattern] def Token.T_FOR : Token := .kw .T_FOR

@[match_pattern] def Token.T_TO : Token := .kw .T_TO

@[match_pattern] def Token.T_STEP : Token := .kw .T_STEP

@[match_pattern] def Token.T_NEXT : Token := .kw .T_NEXT

@[match_pattern] def Token.T_DO : Token := .kw .T_DO

@[match_pattern] def Token.T_WHILE : Token := .kw .T_WHILE

@[match_pattern] def Token.T_UNTIL : Token := .kw .T_UNTIL

@[match_pattern] def Token.T_LOOP : Token := .kw .T_LOOP

@[match_pattern] def Token.T_GOTO : Token := .kw .T_GOTO

@[match_pattern] def Token.T_MOD : Token := .kw .T_MOD

@[match_pattern] def Token.T_AND : Token := .kw .T_AND

@[match_pattern] def Token.T_OR : Token := .kw .T_OR

@[match_pattern] def Token.T_XOR : Token := .kw .T_XOR

@[match_pattern] def Token.T_NOT : Token := .kw .T_NOT

@[match_pattern] def Token.T_STOP : Token := .kw .T_STOP

@[match_pattern] def Token.T_RETURN : Token := .kw .T_RETURN

@[match_pattern] def Token.T_INPUT : Token := .kw .T_INPUT

@[match_pattern] def Token.T_PRINT : Token := .kw .T_PRINT

@[match_pattern] def Token.T_ASM : Token := .kw .T_ASM

@[match_pattern] def Token.T_END_DEF : Token := .kw .T_END_DEF

@[match_pattern] def Token.T_END_IF : Token := .kw .T_END_IF

@[match_pattern] def Token.T_END_SELECT : Token := .kw .T_END_SELECT

@[match_pattern] def Token.T_END_ASM : Token := .kw .T_END_ASM

@[match_pattern] def Token.T_ELSE_IF : Token := .kw .T_ELSE_IF

@[match_pattern] def Token.T_DO_WHILE : Token := .kw .T_DO_WHILE

@[match_pattern] def Token.T_DO_UNTIL : Token := .kw .T_DO_UNTIL

@[match_pattern] def Token.T_LOOP_WHILE : Token := .kw .T_LOOP_WHILE

@[match_pattern] def Token.T_LOOP_UNTIL : Token := .kw .T_LOOP_UNTIL

@[match_pattern] def Token.T_LE : Token := .kw .T_LE

@[match_pattern] def Token.T_NE : Token := .kw .T_NE

@[match_pattern] def Token.T_GE : Token := .kw .T_GE

@[match_pattern] def Token.T_SHL : Token := .kw .T_SHL

@[match_pattern] def Token.T_SHR : Token := .kw .T_SHR

@[match_pattern] def Token.T_IDENTIFIER : Token := .kw .T_IDENTIFIER

@[match_pattern] def Token.T_NUMBER : Token := .kw .T_NUMBER

@[match_pattern] def Token.T_STRING : Token := .kw .T_STRING

@[match_pattern] def Token.T_EOL : Token := .kw .T_EOL

@[match_pattern] def Token.T_EOF : Token := .kw .T_EOF

/-- C ctype isdigit, ASCII / C locale. -/
def isDigitC (c : Char) : Bool := 48 ≤ c.toNat && c.toNat ≤ 57

/-- C ctype isupper, ASCII / C locale. -/
def isUpperC (c : Char) : Bool := 65 ≤ c.toNat && c.toNat ≤ 90

/-- C ctype islower, ASCII / C locale. -/
def isLowerC (c : Char) : Bool := 97 ≤ c.toNat && c.toNat ≤ 122

/-- C ctype isspace, ASCII / C locale: space, tab, newline, vertical tab,
form feed, carriage return. -/
def isSpaceC (c : Char) : Bool :=
  c = ' ' || c = '\t' || c = '\n' || c = '\x0b' || c = '\x0c' || c = '\r'

/-- C ctype isxdigit, ASCII / C locale. -/
def isXDigitC (c : Char) : Bool :=
  isDigitC c || (97 ≤ c.toNat && c.toNat ≤ 102) || (65 ≤ c.toNat && c.toNat ≤ 70)

/-- IdentifierCharP from db_scan.c: letter, digit or underscore. -/
def IdentifierCharP (c : Char) : Bool :=
  isUpperC c || isLowerC c || isDigitC c || c = '_'

/-- Keyword table ktab from db_scan.c, in source order. -/
def ktab : List (String × Token) :=
  [("REM", .T_REM), ("OPTION", .T_OPTION), ("INCLUDE", .T_INCLUDE),
   ("DEF", .T_DEF), ("DIM", .T_DIM), ("AS", .T_AS), ("IN", .T_IN),
   ("LET", .T_LET), ("IF", .T_IF), ("THEN", .T_THEN), ("ELSE", .T_ELSE),
   ("SELECT", .T_SELECT), ("CASE", .T_CASE), ("END", .T_END),
   ("FOR", .T_FOR), ("TO", .T_TO), ("STEP", .T_STEP), ("NEXT", .T_NEXT),
   ("DO", .T_DO), ("WHILE", .T_WHILE), ("UNTIL", .T_UNTIL),
   ("LOOP", .T_LOOP), ("GOTO", .T_GOTO), ("MOD", .T_MOD), ("AND", .T_AND),
   ("OR", .T_OR), ("XOR", .T_XOR), ("NOT", .T_NOT), ("STOP", .T_STOP),
   ("RETURN", .T_RETURN), ("INPUT", .T_INPUT), ("PRINT", .T_PRINT),
   ("ASM", .T_ASM)]

/-- Case-insensitive equality of character sequences, as computed by the C
strcasecmp on ASCII strings. -/
def strCaseEqv (a b : List Char) : Bool :=
  a.map Char.toUpper == b.map Char.toUpper

/-- Look a spelling up in the keyword table (first match, in table order),
as the loop at the end of IdentifierToken does. -/
def lookupKeyword (tok : List Char) : Option Token :=
  (ktab.find? fun kt => strCaseEqv kt.1.toList tok).map (·.2)

/-- Modelled from the spec: MAXTOKEN, the fixed capacity of the token
spelling buffer, declared in db_compiler.h which is not part of the
sources at hand.  The spec only states that the capacity is fixed and
finite; the concrete value 32 is irrelevant to every claim except that
some finite bound exists. -/
def MAXTOKEN : Nat := 32

/-- Scanner state, the per-line part of the C ParseContext: the current
line buffer, the cursor (linePtr as an index into lineBuf), the
block-comment carry flag, the token spelling buffer, the decoded numeric
value, the token start offset, and the one-token lookahead. -/
structure ScanState where
  line : List Char
  pos : Nat
  inComment : Bool
  token : List Char
  value : Nat
  tokenOffset : Nat
  savedToken : Token
  deriving DecidableEq

/-- XGetC from db_scan.c: next character of the line buffer, or EOF at the
terminating NUL (modelled as the end of the list); the cursor does not
move past the end. -/
def XGetC (line : List Char) (pos : Nat) : Option Char × Nat :=
  match line.get? pos with
  | some c => (some c, pos + 1)
  | none => (none, pos)

/-- Loop body of SkipComment from db_scan.c, with explicit fuel.  Scans for
the two-character comment terminator; returns whether it was found and the
final cursor.  The fuel-0 case coincides with the end-of-buffer case. -/
def SkipCommentGo (line : List Char) : Nat → Char → Nat → Bool × Nat
  | 0, _, pos => (false, pos)
  | Nat.succ k, lastch, pos =>
    match XGetC line pos with
    | (none, _) => (false, pos)
    | (some ch, p) =>
      if lastch = '*' && ch = '/' then (true, p)
      else SkipCommentGo line k ch p

/-- SkipComment from db_scan.c (lastch starts as NUL). -/
def SkipComment (line : List Char) (pos : Nat) : Bool × Nat :=
  SkipCommentGo line (line.length - pos) (Char.ofNat 0) pos

/-- Loop body of GetChar from db_scan.c (the part after the in-comment
check), with explicit fuel: returns the next non-comment character, the
new cursor, and whether an unterminated block comment was entered.  A
line comment consumes the rest of the buffer; a lone slash is pushed back
and returned as itself. -/
def GetCharGo (line : List Char) : Nat → Nat → Option Char × Nat × Bool
  | 0, pos => (none, pos, false)
  | Nat.succ k, pos =>
    match XGetC line pos with
    | (none, _) => (none, pos, false)
    | (some ch, p1) =>
      if ch = '/' then
        match XGetC line p1 with
        | (some '/', _) => (none, line.length, false)
        | (some '*', p2) =>
          match SkipComment line p2 with
          | (true, p3) => GetCharGo line k p3
          | (false, p3) => (none, p3, true)
        | (some _, p2) => (some '/', p2 - 1, false)
        | (none, p2) => (some '/', p2 - 1, false)
      else (some ch, p1, false)

/-- GetChar from db_scan.c on a cursor not inside a block comment. -/
def GetCharAux (line : List Char) (pos : Nat) : Option Char × Nat × Bool :=
  GetCharGo line (line.length - pos) pos

/-- GetChar from db_scan.c: if the in-block-comment flag is set, first scan
for the terminator (returning EOF with the flag still set when the
terminator is not on this line), then deliver the next non-comment
character. -/
def GetChar (line : List Char) (pos : Nat) (ic : Bool) : Option Char × Nat × Bool :=
  if ic then
    match SkipComment line pos with
    | (false, p) => (none, p, true)
    | (true, p) => GetCharAux line p
  else GetCharAux line pos

/-- Loop body of SkipSpaces from db_scan.c, with explicit fuel. -/
def SkipSpacesGo (line : List Char) : Nat → Nat → Bool → Option Char × Nat × Bool
  | 0, pos, ic => (none, pos, ic)
  | Nat.succ k, pos, ic =>
    match GetChar line pos ic with
    | (none, p, ic2) => (none, p, ic2)
    | (some ch, p, ic2) =>
      if isSpaceC ch then SkipSpacesGo line k p ic2 else (some ch, p, ic2)

/-- SkipSpaces from db_scan.c: consume whitespace (comments elided) and
return the first non-blank character. -/
def SkipSpaces (line : List Char) (pos : Nat) (ic : Bool) : Option Char × Nat × Bool :=
  SkipSpacesGo line (line.length - pos) pos ic

/-- LiteralChar from db_scan.c: one character of a literal, with the
escape mapping applied to whatever character comes next (the caller is
responsible for any backslash handling): n, r, t map to newline, carriage
return, tab; end of input maps to a literal backslash (and does not move
the cursor); anything else passes through as itself. -/
def LiteralChar (line : List Char) (pos : Nat) : Char × Nat :=
  match XGetC line pos with
  | (none, _) => ('\\', pos)
  | (some ch, p) =>
    if ch = 'n' then ('\n', p)
    else if ch = 'r' then ('\r', p)
    else if ch = 't' then ('\t', p)
    else (ch, p)

/-- Loop body of StringToken from db_scan.c, with explicit fuel: collect
characters up to an unescaped closing double quote, decoding backslash
escapes through LiteralChar, enforcing the MAXTOKEN capacity, and failing
as unterminated when the buffer ends first.  The fuel-0 case coincides
with the end-of-buffer case. -/
def StringGo (line : List Char) : Nat → Nat → List Char → Nat → Except String (List Char × Nat)
  | 0, _, _, _ => .error "unterminated string"
  | Nat.succ k, pos, acc, len =>
    match XGetC line pos with
    | (none, _) => .error "unterminated string"
    | (some ch, p) =>
      if ch = '"' then .ok (acc, p)
      else if len + 1 > MAXTOKEN then .error "String too long"
      else if ch = '\\' then
        let cp := LiteralChar line p
        StringGo line k cp.2 (acc ++ [cp.1]) (len + 1)
      else StringGo line k p (acc ++ [ch]) (len + 1)

/-- The collection loop of StringToken, started the way StringToken starts
it (empty spelling, length 0). -/
def StringScan (line : List Char) (pos : Nat) : Except String (List Char × Nat) :=
  StringGo line (line.length - pos) pos [] 0

/-- StringToken from db_scan.c (called with the cursor just past the
opening double quote). -/
def StringToken (s : ScanState) : Except String (Token × ScanState) :=
  match StringScan s.line s.pos with
  | .error e => .error e
  | .ok (str, p) => .ok (.T_STRING, { s with pos := p, token := str })

/-- CharToken from db_scan.c (called with the cursor just past the opening
single quote): decode one LiteralChar, require an immediately following
closing single quote, and produce a number token carrying the decoded
character code. -/
def CharToken (s : ScanState) : Except String (Token × ScanState) :=
  let cp := LiteralChar s.line s.pos
  match XGetC s.line cp.2 with
  | (some q, p2) =>
    if q = '\'' then
      .ok (.T_NUMBER, { s with pos := p2, token := [cp.1], value := cp.1.toNat })
    else .error "Expecting a closing single quote"
  | (none, _) => .error "Expecting a closing single quote"

/-- Loop body of IdentifierToken from db_scan.c, with explicit fuel:
collect identifier characters (comments elided by GetChar), enforce the
MAXTOKEN capacity, and unget the terminating character (the C code calls
UngetC unconditionally after the loop, also on end of input). -/
def IdentGo (line : List Char) : Nat → Nat → Bool → List Char → Nat → Except String (List Char × Nat × Bool)
  | 0, pos, ic, acc, _ => .ok (acc, pos - 1, ic)
  | Nat.succ k, pos, ic, acc, len =>
    match GetChar line pos ic with
    | (none, p, ic2) => .ok (acc, p - 1, ic2)
    | (some ch, p, ic2) =>
      if IdentifierCharP ch then
        if len + 1 > MAXTOKEN then .error "Identifier too long"
        else IdentGo line k p ic2 (acc ++ [ch]) (len + 1)
      else .ok (acc, p - 1, ic2)

/-- IdentifierToken from db_scan.c: collect the identifier starting with
the already-consumed character ch, then match it case-insensitively
against the keyword table. -/
def IdentifierToken (s : ScanState) (ch : Char) : Except String (Token × ScanState) :=
  match IdentGo s.line (s.line.length - s.pos) s.pos s.inComment [ch] 1 with
  | .error e => .error e
  | .ok (tok, p, ic) =>
    let s2 := { s with pos := p, inComment := ic, token := tok }
    match lookupKeyword tok with
    | some k => .ok (k, s2)
    | none => .ok (.T_IDENTIFIER, s2)

/-- Value of one ASCII digit in any of the three bases. -/
def digitVal (c : Char) : Nat :=
  if 48 ≤ c.toNat && c.toNat ≤ 57 then c.toNat - 48
  else if 97 ≤ c.toNat && c.toNat ≤ 102 then c.toNat - 87
  else if 65 ≤ c.toNat && c.toNat ≤ 70 then c.toNat - 55
  else 0

/-- Standard base conversion of a digit sequence. -/
def decodeBase (b : Nat) (ds : List Char) : Nat :=
  ds.foldl (fun a c => b * a + digitVal c) 0

/-- The C atol applied to the collected spelling: base 10 conversion of
the leading run of decimal digits.  The VMVALUE cast (silent wrap on
overflow, left unspecified by the spec) is not modelled; every claim
value is small. -/
def atolC (ds : List Char) : Nat :=
  decodeBase 10 (ds.takeWhile isDigitC)

/-- The C strtoul applied to the collected spelling with an explicit
base: conversion of the leading run of digits of that base. -/
def strtoulC (base : Nat) (digitP : Char → Bool) (ds : List Char) : Nat :=
  decodeBase base (ds.takeWhile digitP)

/-- Loop body of NumberToken from db_scan.c, with explicit fuel: collect
decimal digits, skip underscores, stop at anything else, unget the
terminating character. -/
def NumGo (line : List Char) : Nat → Nat → Bool → List Char → List Char × Nat × Bool
  | 0, pos, ic, acc => (acc, pos - 1, ic)
  | Nat.succ k, pos, ic, acc =>
    match GetChar line pos ic with
    | (none, p, ic2) => (acc, p - 1, ic2)
    | (some ch, p, ic2) =>
      if isDigitC ch then NumGo line k p ic2 (acc ++ [ch])
      else if ch = '_' then NumGo line k p ic2 acc
      else (acc, p - 1, ic2)

/-- NumberToken from db_scan.c: collect a decimal literal whose first
character ch was already consumed by the dispatcher, and decode it with
atol (standard base 10 conversion of the collected digits). -/
def NumberToken (s : ScanState) (ch : Char) : Token × ScanState :=
  match NumGo s.line (s.line.length - s.pos) s.pos s.inComment [ch] with
  | (ds, p, ic) =>
    (.T_NUMBER, { s with pos := p, inComment := ic, token := ds, value := atolC ds })

/-- Loop body of HexNumberToken from db_scan.c, with explicit fuel. -/
def HexGo (line : List Char) : Nat → Nat → Bool → List Char → List Char × Nat × Bool
  | 0, pos, ic, acc => (acc, pos - 1, ic)
  | Nat.succ k, pos, ic, acc =>
    match GetChar line pos ic with
    | (none, p, ic2) => (acc, p - 1, ic2)
    | (some ch, p, ic2) =>
      if isXDigitC ch then HexGo line k p ic2 (acc ++ [ch])
      else if ch = '_' then HexGo line k p ic2 acc
      else (acc, p - 1, ic2)

/-- HexNumberToken from db_scan.c (called with the cursor just past the 0x
prefix): collect hexadecimal digits, skip underscores, and decode with
strtoul base 16. -/
def HexNumberToken (s : ScanState) : Token × ScanState :=
  match HexGo s.line (s.line.length - s.pos) s.pos s.inComment [] with
  | (ds, p, ic) =>
    (.T_NUMBER, { s with pos := p, inComment := ic, token := ds,
                         value := strtoulC 16 isXDigitC ds })

/-- Loop body of BinaryNumberToken from db_scan.c, with explicit fuel. -/
def BinGo (line : List Char) : Nat → Nat → Bool → List Char → List Char × Nat × Bool
  | 0, pos, ic, acc => (acc, pos - 1, ic)
  | Nat.succ k, pos, ic, acc =>
    match GetChar line pos ic with
    | (none, p, ic2) => (acc, p - 1, ic2)
    | (some ch, p, ic2) =>
      if ch = '0' || ch = '1' then BinGo line k p ic2 (acc ++ [ch])
      else if ch = '_' then BinGo line k p ic2 acc
      else (acc, p - 1, ic2)

/-- BinaryNumberToken from db_scan.c (called with the cursor just past the
0b prefix): collect binary digits, skip underscores, and decode with
strtoul base 2. -/
def BinaryNumberToken (s : ScanState) : Token × ScanState :=
  match BinGo s.line (s.line.length - s.pos) s.pos s.inComment [] with
  | (ds, p, ic) =>
    (.T_NUMBER, { s with pos := p, inComment := ic, token := ds,
                         value := strtoulC 2 (fun c => c = '0' || c = '1') ds })

/-- The compound keyword merge table of NextToken: the four switch
statements merging ELSE, END, DO, LOOP with a following keyword. -/
def mergePair : Token → Token → Option Token
  | .T_ELSE, .T_IF => some .T_ELSE_IF
  | .T_END, .T_DEF => some .T_END_DEF
  | .T_END, .T_IF => some .T_END_IF
  | .T_END, .T_SELECT => some .T_END_SELECT
  | .T_END, .T_ASM => some .T_END_ASM
  | .T_DO, .T_WHILE => some .T_DO_WHILE
  | .T_DO, .T_UNTIL => some .T_DO_UNTIL
  | .T_LOOP, .T_WHILE => some .T_LOOP_WHILE
  | .T_LOOP, .T_UNTIL => some .T_LOOP_UNTIL
  | _, _ => none

/-- The compound-keyword lookahead of NextToken, performed after
recognizing first = ELSE, END, DO or LOOP: remember the cursor, skip
whitespace and comments, read a second identifier, and either emit the
merged token or restore the cursor to exactly the remembered position
(only the cursor is restored, matching the C code, which restores only
linePtr). -/
def MergeLookahead (first : Token) (s1 : ScanState) : Except String (Token × ScanState) :=
  let savePtr := s1.pos
  match SkipSpaces s1.line s1.pos s1.inComment with
  | (none, _, ic2) => .ok (first, { s1 with pos := savePtr, inComment := ic2 })
  | (some ch2, p2, ic2) =>
    if IdentifierCharP ch2 then
      match IdentifierToken { s1 with pos := p2, inComment := ic2 } ch2 with
      | .error e => .error e
      | .ok (second, s3) =>
        match mergePair first second with
        | some comp => .ok (comp, s3)
        | none => .ok (first, { s3 with pos := savePtr })
    else .ok (first, { s1 with pos := savePtr, inComment := ic2 })

/-- NextToken from db_scan.c: skip whitespace and comments, record the
token start offset, and dispatch on the first character. -/
def NextToken (s : ScanState) : Except String (Token × ScanState) :=
  match SkipSpaces s.line s.pos s.inComment with
  | (och, p0, ic0) =>
    let s := { s with pos := p0, inComment := ic0, tokenOffset := p0 }
    match och with
    | none => .ok (.T_EOL, s)
    | some ch =>
      if ch = '"' then StringToken s
      else if ch = '\'' then CharToken s
      else if ch = '<' then
        match GetChar s.line s.pos s.inComment with
        | (some c2, p2, ic2) =>
          if c2 = '=' then .ok (.T_LE, { s with pos := p2, inComment := ic2 })
          else if c2 = '>' then .ok (.T_NE, { s with pos := p2, inComment := ic2 })
          else if c2 = '<' then .ok (.T_SHL, { s with pos := p2, inComment := ic2 })
          else .ok (.TCH '<', { s with pos := p2 - 1, inComment := ic2 })
        | (none, p2, ic2) => .ok (.TCH '<', { s with pos := p2 - 1, inComment := ic2 })
      else if ch = '>' then
        match GetChar s.line s.pos s.inComment with
        | (some c2, p2, ic2) =>
          if c2 = '=' then .ok (.T_GE, { s with pos := p2, inComment := ic2 })
          else if c2 = '>' then .ok (.T_SHR, { s with pos := p2, inComment := ic2 })
          else .ok (.TCH '>', { s with pos := p2 - 1, inComment := ic2 })
        | (none, p2, ic2) => .ok (.TCH '>', { s with pos := p2 - 1, inComment := ic2 })
      else if ch = '0' then
        match GetChar s.line s.pos s.inComment with
        | (some c2, p2, ic2) =>
          if c2 = 'x' || c2 = 'X' then .ok (HexNumberToken { s with pos := p2, inComment := ic2 })
          else if c2 = 'b' || c2 = 'B' then .ok (BinaryNumberToken { s with pos := p2, inComment := ic2 })
          else .ok (NumberToken { s with pos := p2 - 1, inComment := ic2 } '0')
        | (none, p2, ic2) => .ok (NumberToken { s with pos := p2 - 1, inComment := ic2 } '0')
      else if isDigitC ch then .ok (NumberToken s ch)
      else if IdentifierCharP ch then
        match IdentifierToken s ch with
        | .error e => .error e
        | .ok (tkn, s1) =>
          if tkn = .T_ELSE || tkn = .T_END || tkn = .T_DO || tkn = .T_LOOP then
            MergeLookahead tkn s1
          else .ok (tkn, s1)
      else .ok (.TCH ch, s)

/-- GetToken from db_scan.c: return the saved lookahead token if one is
pending (clearing it), else recognize the next token. -/
def GetToken (s : ScanState) : Except String (Token × ScanState) :=
  if s.savedToken ≠ .T_NONE then .ok (s.savedToken, { s with savedToken := .T_NONE })
  else NextToken s

/-- SaveToken from db_scan.c. -/
def SaveToken (s : ScanState) (t : Token) : ScanState :=
  { s with savedToken := t }

/-- A fresh scanner state on a given line buffer, cursor at the start, no
pending comment or lookahead: the state in which the token recognizer
starts on a freshly fetched line. -/
def mkScan (str : String) : ScanState :=
  { line := str.toList, pos := 0, inComment := false, token := [], value := 0,
    tokenOffset := 0, savedToken := .T_NONE }

/-- Token kind of a recognizer result (none on a lexical error). -/
def tokOf (r : Except String (Token × ScanState)) : Option Token :=
  r.toOption.map Prod.fst

/-- Decoded numeric value of a recognizer result. -/
def valOf (r : Except String (Token × ScanState)) : Option Nat :=
  r.toOption.map fun p => p.2.value

/-- Token spelling buffer of a recognizer result. -/
def spellOf (r : Except String (Token × ScanState)) : Option (List Char) :=
  r.toOption.map fun p => p.2.token

/-- Cursor of a recognizer result. -/
def posOf (r : Except String (Token × ScanState)) : Option Nat :=
  r.toOption.map fun p => p.2.pos

/-- Block-comment flag of a recognizer result. -/
def icOf (r : Except String (Token × ScanState)) : Option Bool :=
  r.toOption.map fun p => p.2.inComment

/-- State component of a recognizer result (a dummy state on error; used
only to chain concrete token-by-token test runs). -/
def stateAfter (r : Except String (Token × ScanState)) : ScanState :=
  (r.toOption.map Prod.snd).getD (mkScan "")

/-- Error message of a recognizer result, none on success: the observable
of the ParseError abort path. -/
def errOf (r : Except String (Token × ScanState)) : Option String :=
  match r with
  | .error e => some e
  | .ok _ => none

/-- Error message of a string-collection result, none on success. -/
def errS (r : Except String (List Char × Nat)) : Option String :=
  match r with
  | .error e => some e
  | .ok _ => none

/-! ## Input stream manager

One frame of the input file stack.  The main frame is the ParseFile
structure embedded in the ParseContext itself (the C code recognizes it by
address, f == and-of c.mainFile); its mutable data (line counter and the
remaining input of the host-supplied getLine callback) lives in the
EngineState fields below, so the stack entry is a plain reference.  A file
frame carries its file name, its line counter and the lines remaining in
the open file. -/
inductive Frame where
  | mainRef
  | fileF (name : String) (lineNumber : Nat) (lines : List (List Char))
  deriving DecidableEq

/-- The whole-engine state: the per-line scanner state, the input file
stack (top first, the C currentFile chain), the persistent main-frame
data, the included-files set, and a log of every frame that has been
fclosed and freed (used to state that the main frame is never freed). -/
structure EngineState where
  scan : ScanState
  stack : List Frame
  mainSource : List (List Char)
  mainLines : List (List Char)
  mainLineNumber : Nat
  includedFiles : List String
  freed : List Frame
  deriving DecidableEq

/-- The line-termination fixup of GetLine: if the fetched line is empty or
does not end in a newline, a newline is appended before scanning begins. -/
def ensureNL (l : List Char) : List Char :=
  if l.getLast? = some '\n' then l else l ++ ['\n']

/-- Loop of GetLine from db_scan.c, recursing on the stack: try to fetch a
line from the top frame; on end of file pop the frame (closing and
freeing it unless it is the main frame, mirroring the f ==
and-of c.mainFile test) and retry with the frame beneath; fail when no
frame remains (the C code sets currentFile to NULL when the main frame
itself is exhausted).  On success the line buffer is newline-terminated,
the cursor reset, the producing frame's line counter incremented, and the
token lookahead cleared. -/
def GetLineAux (s : EngineState) : List Frame → Bool × EngineState
  | [] => (false, { s with stack := [] })
  | .mainRef :: rest =>
    match s.mainLines with
    | l :: ls =>
      (true, { s with
               stack := .mainRef :: rest,
               mainLines := ls,
               mainLineNumber := s.mainLineNumber + 1,
               scan := { s.scan with line := ensureNL l, pos := 0, savedToken := .T_NONE } })
    | [] => GetLineAux s rest
  | .fileF n ln ls :: rest =>
    match ls with
    | l :: ls2 =>
      (true, { s with
               stack := .fileF n (ln + 1) ls2 :: rest,
               scan := { s.scan with line := ensureNL l, pos := 0, savedToken := .T_NONE } })
    | [] => GetLineAux { s with freed := s.freed ++ [.fileF n ln ls] } rest

/-- GetLine from db_scan.c. -/
def GetLine (s : EngineState) : Bool × EngineState :=
  GetLineAux s s.stack

/-- PushFile from db_scan.c, with the host file system supplied as a map
from names to the lines of openable files: if the name is already in the
included-files set, return success with no side effects; otherwise record
the name, open the file (returning failure without touching the stack
when it cannot be opened) and push a new frame.  The C allocation-failure
path (a fatal "insufficient memory" ParseError) is not modelled:
allocation is treated as always succeeding. -/
def PushFile (fs : String → Option (List (List Char))) (s : EngineState) (name : String) :
    Bool × EngineState :=
  if name ∈ s.includedFiles then (true, s)
  else
    let s1 := { s with includedFiles := name :: s.includedFiles }
    match fs name with
    | none => (false, s1)
    | some ls => (true, { s1 with stack := .fileF name 0 ls :: s1.stack })

/-- ClearIncludedFiles from db_scan.c. -/
def ClearIncludedFiles (s : EngineState) : EngineState :=
  { s with includedFiles := [] }

/-- Loop of CloseParseContext from db_scan.c: close and free every frame
above the main frame (the loop stops at NULL or at the main frame), then
point the input back at the main frame. -/
def CloseAux (s : EngineState) : List Frame → EngineState
  | [] => { s with stack := [.mainRef] }
  | .mainRef :: rest => { s with stack := .mainRef :: rest }
  | .fileF n ln ls :: rest => CloseAux { s with freed := s.freed ++ [.fileF n ln ls] } rest

/-- CloseParseContext from db_scan.c. -/
def CloseParseContext (s : EngineState) : EngineState :=
  CloseAux s s.stack

/-- RewindInput from db_scan.c: rewind the host-supplied main input to its
beginning, reset the main line counter, and point the stack at the main
frame alone (mainFile.next is set to NULL; frames above it are abandoned,
not freed). -/
def RewindInput (s : EngineState) : EngineState :=
  { s with mainLines := s.mainSource, mainLineNumber := 0, stack := [.mainRef] }

/-- The engine operations that manipulate the input stack: line refills
(which pop exhausted frames), include pushes, close and rewind, plus the
between-pass clearing of the included-files set. -/
inductive Op where
  | rewind
  | close
  | refill
  | push (name : String)
  | clearInc
  deriving DecidableEq

/-- Apply one engine operation to the state. -/
def applyOp (fs : String → Option (List (List Char))) : Op → EngineState → EngineState
  | .rewind, s => RewindInput s
  | .close, s => CloseParseContext s
  | .refill, s => (GetLine s).2
  | .push n, s => (PushFile fs s n).2
  | .clearInc, s => ClearIncludedFiles s

/-- Run a sequence of engine operations. -/
def runOps (fs : String → Option (List (List Char))) (ops : List Op) (s : EngineState) :
    EngineState :=
  ops.foldl (fun s op => applyOp fs op s) s

/-- The engine state at the start of a pass: the main frame alone on the
stack, its input at the beginning, nothing included and nothing freed. -/
def initEngine (src : List (List Char)) : EngineState :=
  { scan := mkScan "", stack := [.mainRef], mainSource := src, mainLines := src,
    mainLineNumber := 0, includedFiles := [], freed := [] }

/-- The empty host file system (no file can be opened). -/
def fsEmpty : String → Option (List (List Char)) := fun _ => none

/-! ## Specification-side predicate for the string-termination claim -/

/-- Modelled from the spec: the words "the line ends before an unescaped
closing double quote", as a predicate on the line and the cursor just past
the opening quote.  A closing quote counts when reached outside an escape;
a backslash consumes the single following character (the escape), exactly
one character when one is available.  This definition follows the
specification text and is compared against the StringToken implementation
in the theorems below. -/
def specUnescCloseGo (line : List Char) : Nat → Nat → Bool
  | 0, _ => false
  | Nat.succ k, pos =>
    match line.get? pos with
    | none => false
    | some c =>
      if c = '"' then true
      else if c = '\\' then
        match line.get? (pos + 1) with
        | none => false
        | some _ => specUnescCloseGo line k (pos + 2)
      else specUnescCloseGo line k (pos + 1)

/-- Modelled from the spec: an unescaped closing double quote occurs
before the end of the line. -/
def specUnescClose (line : List Char) (pos : Nat) : Bool :=
  specUnescCloseGo line (line.length - pos) pos

/-! ## Concrete test fixtures -/

/-- Scanner state just after recognizing END in the line END FOO: cursor
at offset 3 (right after the D), as produced by IdentifierToken. -/
def c2s1 : ScanState := { mkScan "END FOO\n" with pos := 3, token := "END".toList }

/-- The two source lines of the spanning-block-comment scenario. -/
def c3src : List (List Char) := ["/* line1".toList, "line2 */ IF".toList]

/-- Engine state after fetching the first line of the scenario. -/
def c3e1 : EngineState := (GetLine (initEngine c3src)).2

/-- Recognizer result on the first fetched line. -/
def c3r1 : Except String (Token × ScanState) := NextToken c3e1.scan

/-- Refill with the second line, carrying the scanner state (and so the
in-block-comment flag) across the line boundary. -/
def c3e2 : Bool × EngineState := GetLine { c3e1 with scan := stateAfter c3r1 }

/-- Recognizer result on the second fetched line. -/
def c3r2 : Except String (Token × ScanState) := NextToken c3e2.2.scan

/-- An engine state whose included-files set already contains B. -/
def c5state : EngineState := { initEngine [] with includedFiles := ["B"] }

/-- A string literal of 33 characters with no closing quote, on a
newline-terminated line buffer. -/
def c7line : List Char := ('"' :: List.replicate 33 'a') ++ ['\n']

/-- A one-line main input. -/
def c9fix : EngineState := initEngine ["X".toList]

/-- Scanner state on the character literal quote x quote, cursor just past
the opening quote (as when CharToken is entered). -/
def c10s : ScanState := { mkScan "'x'\n" with pos := 1 }

/-- Scanner state on the decimal literal 1_2, cursor just past the first
digit (as when the dispatcher hands the digit to NumberToken). -/
def c8s : ScanState := { mkScan "1_2\n" with pos := 1 }

/-! ## Theorems -/

/-- Helper for C2: whenever the compound-keyword lookahead does not merge,
it returns the first token with the cursor restored to exactly the
position it had before the whitespace skip; when it merges, the emitted
token is an entry of the merge table for the first keyword. -/
theorem mergeLookahead_cases (first : Token) (s1 : ScanState) (t : Token) (s2 : ScanState)
    (h : MergeLookahead first s1 = .ok (t, s2)) :
    (∃ second, mergePair first second = some t) ∨ (t = first ∧ s2.pos = s1.pos) := by
  unfold MergeLookahead at h
  rcases hss : SkipSpaces s1.line s1.pos s1.inComment with ⟨och, p2, ic2⟩
  rw [hss] at h
  rcases och with _ | ch2
  · dsimp only at h
    simp only [Except.ok.injEq, Prod.mk.injEq] at h
    exact Or.inr ⟨h.1.symm, by rw [← h.2]⟩
  · dsimp only at h
    by_cases hid : IdentifierCharP ch2
    · rw [if_pos hid] at h
      rcases hit : IdentifierToken { s1 with pos := p2, inComment := ic2 } ch2 with e | ⟨second, s3⟩
      · rw [hit] at h
        exact absurd h (by simp)
      · rw [hit] at h
        dsimp only at h
        rcases hmp : mergePair first second with _ | comp
        · rw [hmp] at h
          simp only [Except.ok.injEq, Prod.mk.injEq] at h
          exact Or.inr ⟨h.1.symm, by rw [← h.2]⟩
        · rw [hmp] at h
          simp only [Except.ok.injEq, Prod.mk.injEq] at h
          exact Or.inl ⟨second, by rw [hmp]; rw [h.1]⟩
    · rw [if_neg hid] at h
      simp only [Except.ok.injEq, Prod.mk.injEq] at h
      exact Or.inr ⟨h.1.symm, by rw [← h.2]⟩

/-- C1: the claim as frozen says the character literal with a backslash
before the t (quote, backslash, t, quote) produces a numeric token of
value 9.  On the code it does not: CharToken applies LiteralChar directly
to the first character after the opening quote, so the backslash decodes
to itself, the following t fails the closing-quote check, and the
recognizer aborts with the missing-closing-quote condition. -/
theorem c1_counterexample :
    tokOf (NextToken (mkScan "'\\t'\n")) = none ∧
    errOf (NextToken (mkScan "'\\t'\n")) = some "Expecting a closing single quote" := by
  decide

/-- C1 (amended): the character literal written quote t quote decodes to
the tab value 9 as a numeric token (escape letters are recognized without
a backslash introducer); the literal quote backslash t quote fails with
the missing-closing-quote condition, as does the literal quote x with no
closing quote. -/
theorem c1_amended :
    tokOf (NextToken (mkScan "'t'\n")) = some .T_NUMBER ∧
    valOf (NextToken (mkScan "'t'\n")) = some 9 ∧
    errOf (NextToken (mkScan "'\\t'\n")) = some "Expecting a closing single quote" ∧
    errOf (NextToken (mkScan "'x\n")) = some "Expecting a closing single quote" := by
  decide

/-- C2: after END the recognizer attempts the compound merge: the input
END IF yields the single compound END-IF token; the input END FOO yields
END with the cursor restored to exactly offset 3 (the position right
after END, before the whitespace skip), and the next GetToken call yields
the identifier FOO; in general a failed merge always restores the cursor
to exactly its position before the whitespace skip. -/
theorem c2_compound_merge :
    (tokOf (GetToken (mkScan "END IF\n")) = some .T_END_IF ∧
     tokOf (GetToken (mkScan "END FOO\n")) = some .T_END ∧
     posOf (GetToken (mkScan "END FOO\n")) = some 3 ∧
     tokOf (GetToken (stateAfter (GetToken (mkScan "END FOO\n")))) = some .T_IDENTIFIER ∧
     spellOf (GetToken (stateAfter (GetToken (mkScan "END FOO\n")))) = some "FOO".toList) ∧
    (∀ (first : Token) (s1 : ScanState) (t : Token) (s2 : ScanState),
      MergeLookahead first s1 = .ok (t, s2) →
      (∃ second, mergePair first second = some t) ∨ (t = first ∧ s2.pos = s1.pos)) := by
  exact ⟨by decide, mergeLookahead_cases⟩

/-- Witness for C2: the general rollback part applied to the concrete
state of the END FOO run, where the merge fails. -/
theorem c2_compound_merge_witness :
    (∃ second, mergePair .T_END second = some .T_END) ∨
    (Token.T_END = .T_END ∧ (stateAfter (MergeLookahead .T_END c2s1)).pos = c2s1.pos) :=
  c2_compound_merge.2 .T_END c2s1 .T_END (stateAfter (MergeLookahead .T_END c2s1)) (by decide)

/-- C3: lexing the region consisting of the line /* line1 followed by the
line line2 */ IF produces no content token from the first line (just the
end-of-line token with the in-block-comment flag set), the flag persists
across the refill, and on the second line the comment terminator clears
the flag and the single content token IF is produced, followed by end of
line. -/
theorem c3_block_comment :
    (GetLine (initEngine c3src)).1 = true ∧
    c3e1.scan.line = "/* line1\n".toList ∧
    tokOf c3r1 = some .T_EOL ∧
    icOf c3r1 = some true ∧
    c3e2.1 = true ∧
    c3e2.2.scan.line = "line2 */ IF\n".toList ∧
    c3e2.2.scan.inComment = true ∧
    tokOf c3r2 = some .T_IF ∧
    icOf c3r2 = some false ∧
    tokOf (NextToken (stateAfter c3r2)) = some .T_EOL := by
  decide

/-- C5: PushFile is idempotent per file name: when the name is already in
the included-files set it returns success and the state is exactly
unchanged — no file reopened, no frame pushed. -/
theorem c5_push_idempotent (fs : String → Option (List (List Char)))
    (s : EngineState) (name : String) (h : name ∈ s.includedFiles) :
    PushFile fs s name = (true, s) := by
  simp [PushFile, h]

/-- Witness for C5 at a concrete state whose included-files set already
contains B. -/
theorem c5_push_idempotent_witness : PushFile fsEmpty c5state "B" = (true, c5state) :=
  c5_push_idempotent fsEmpty c5state "B" (by decide)

/-- C6: when the name is not yet in the included-files set and the file
cannot be opened, PushFile records the name in the set and returns
failure with the input stack unchanged (top frame included). -/
theorem c6_push_open_failure (fs : String → Option (List (List Char)))
    (s : EngineState) (name : String) (h1 : name ∉ s.includedFiles) (h2 : fs name = none) :
    PushFile fs s name = (false, { s with includedFiles := name :: s.includedFiles }) ∧
    (PushFile fs s name).2.stack = s.stack ∧
    (PushFile fs s name).2.stack.head? = s.stack.head? ∧
    name ∈ (PushFile fs s name).2.includedFiles := by
  have hp : PushFile fs s name = (false, { s with includedFiles := name :: s.includedFiles }) := by
    simp [PushFile, h1, h2]
  refine ⟨hp, ?_, ?_, ?_⟩
  · rw [hp]
  · rw [hp]
  · rw [hp]
    exact List.mem_cons_self _ _

/-- Helper: the bottom-of-stack property is inherited by the tail of the
stack. -/
theorem mainBottom_tail (f : Frame) (rest : List Frame)
    (h : Frame.mainRef ∈ f :: rest → (f :: rest).getLast? = some .mainRef) :
    Frame.mainRef ∈ rest → rest.getLast? = some .mainRef := by
  intro hm
  rcases rest with _ | ⟨g, rs⟩
  · cases hm
  · exact h (List.mem_cons_of_mem f hm)

/-- Helper: replacing the head of a nonempty stack preserves the
bottom-of-stack property when the main frame sits strictly below the
head. -/
theorem mainBottom_replace_head (x y : Frame) (rest : List Frame)
    (h : Frame.mainRef ∈ x :: rest → (x :: rest).getLast? = some .mainRef)
    (hm : Frame.mainRef ∈ rest) : (y :: rest).getLast? = some .mainRef := by
  rcases rest with _ | ⟨g, rs⟩
  · cases hm
  · exact h (List.mem_cons_of_mem x hm)

/-- Helper: consing onto a stack that contains the main frame does not
change the bottom element. -/
theorem getLast?_cons_of_mem (y : Frame) (l : List Frame) (hm : Frame.mainRef ∈ l) :
    (y :: l).getLast? = l.getLast? := by
  rcases l with _ | ⟨g, rs⟩
  · cases hm
  · rfl

/-- Helper for C4: the GetLine loop never frees the main frame and
preserves the bottom-of-stack property. -/
theorem getLineAux_inv (stk : List Frame) :
    ∀ s : EngineState, Frame.mainRef ∉ s.freed →
    (Frame.mainRef ∈ stk → stk.getLast? = some .mainRef) →
    Frame.mainRef ∉ ((GetLineAux s stk).2).freed ∧
    (Frame.mainRef ∈ ((GetLineAux s stk).2).stack →
      ((GetLineAux s stk).2).stack.getLast? = some .mainRef) := by
  induction stk with
  | nil =>
    intro s hf _
    refine ⟨hf, ?_⟩
    intro hm
    simp only [GetLineAux] at hm
    cases hm
  | cons f rest ih =>
    intro s hf hP
    cases f with
    | mainRef =>
      cases hml : s.mainLines with
      | cons l ls =>
        simp only [GetLineAux, hml]
        exact ⟨hf, hP⟩
      | nil =>
        simp only [GetLineAux, hml]
        exact ih s hf (mainBottom_tail _ _ hP)
    | fileF n ln ls =>
      cases ls with
      | cons l ls2 =>
        simp only [GetLineAux]
        refine ⟨hf, ?_⟩
        intro hm
        rcases List.mem_cons.mp hm with he | hm2
        · cases he
        · exact mainBottom_replace_head _ _ rest hP hm2
      | nil =>
        simp only [GetLineAux]
        refine ih _ ?_ (mainBottom_tail _ _ hP)
        intro hc
        rcases List.mem_append.mp hc with h1 | h2
        · exact hf h1
        · exact Frame.noConfusion (List.mem_singleton.mp h2)

/-- Helper for C4: the CloseParseContext loop never frees the main frame
and always leaves the main frame at the bottom. -/
theorem closeAux_inv (stk : List Frame) :
    ∀ s : EngineState, Frame.mainRef ∉ s.freed →
    (Frame.mainRef ∈ stk → stk.getLast? = some .mainRef) →
    Frame.mainRef ∉ ((CloseAux s stk)).freed ∧
    (Frame.mainRef ∈ (CloseAux s stk).stack →
      (CloseAux s stk).stack.getLast? = some .mainRef) := by
  induction stk with
  | nil =>
    intro s hf _
    exact ⟨hf, fun _ => rfl⟩
  | cons f rest ih =>
    intro s hf hP
    cases f with
    | mainRef =>
      simp only [CloseAux]
      exact ⟨hf, hP⟩
    | fileF n ln ls =>
      simp only [CloseAux]
      refine ih _ ?_ (mainBottom_tail _ _ hP)
      intro hc
      rcases List.mem_append.mp hc with h1 | h2
      · exact hf h1
      · exact Frame.noConfusion (List.mem_singleton.mp h2)

/-- Helper for C4: every single engine operation preserves the
never-freed and bottom-of-stack properties. -/
theorem applyOp_inv (fs : String → Option (List (List Char))) (op : Op) (s : EngineState)
    (hf : Frame.mainRef ∉ s.freed)
    (hP : Frame.mainRef ∈ s.stack → s.stack.getLast? = some .mainRef) :
    Frame.mainRef ∉ (applyOp fs op s).freed ∧
    (Frame.mainRef ∈ (applyOp fs op s).stack →
      (applyOp fs op s).stack.getLast? = some .mainRef) := by
  cases op with
  | rewind => exact ⟨hf, fun _ => rfl⟩
  | close => exact closeAux_inv s.stack s hf hP
  | refill => exact getLineAux_inv s.stack s hf hP
  | clearInc => exact ⟨hf, hP⟩
  | push n =>
    simp only [applyOp, PushFile]
    by_cases hm : n ∈ s.includedFiles
    · rw [if_pos hm]
      exact ⟨hf, hP⟩
    · rw [if_neg hm]
      cases hfs : fs n with
      | none => exact ⟨hf, hP⟩
      | some ls =>
        refine ⟨hf, ?_⟩
        intro hmem
        dsimp only at hmem
        rcases List.mem_cons.mp hmem with he | hm2
        · cases he
        · dsimp only
          rw [getLast?_cons_of_mem _ _ hm2]
          exact hP hm2

/-- Helper for C4: the two properties are preserved by any sequence of
engine operations. -/
theorem runOps_inv (fs : String → Option (List (List Char))) (ops : List Op) :
    ∀ s : EngineState, Frame.mainRef ∉ s.freed →
    (Frame.mainRef ∈ s.stack → s.stack.getLast? = some .mainRef) →
    Frame.mainRef ∉ (runOps fs ops s).freed ∧
    (Frame.mainRef ∈ (runOps fs ops s).stack →
      (runOps fs ops s).stack.getLast? = some .mainRef) := by
  induction ops with
  | nil => exact fun s hf hP => ⟨hf, hP⟩
  | cons op ops ih =>
    intro s hf hP
    have h1 := applyOp_inv fs op s hf hP
    exact ih (applyOp fs op s) h1.1 h1.2

/-- C4: the claim as frozen says the main frame remains present at the
bottom of the stack under every sequence of engine operations.  It does
not: when the main input itself is exhausted, GetLine pops the main frame
too (the C code sets currentFile to NULL), leaving the stack empty.  Here
a single refill of an empty main input removes the main frame from the
stack. -/
theorem c4_counterexample :
    Frame.mainRef ∉ (runOps fsEmpty [Op.refill] (initEngine [])).stack := by
  decide

/-- C4 (amended): under every sequence of engine operations from the
initial state, the main frame is never closed and freed, and whenever the
main frame is on the input stack it is at the bottom; the only way it
leaves the stack is the final line refill that exhausts the whole input,
and close or rewind put it back. -/
theorem c4_amended (fs : String → Option (List (List Char)))
    (src : List (List Char)) (ops : List Op) :
    Frame.mainRef ∉ (runOps fs ops (initEngine src)).freed ∧
    (Frame.mainRef ∈ (runOps fs ops (initEngine src)).stack →
      (runOps fs ops (initEngine src)).stack.getLast? = some .mainRef) :=
  runOps_inv fs ops (initEngine src) (by intro h; cases h) (fun _ => rfl)

/-- Witness for C4 (amended) at a concrete operation sequence on whose
result the main frame is on the stack. -/
theorem c4_amended_witness :
    Frame.mainRef ∉ (runOps fsEmpty [Op.refill, Op.close] (initEngine [])).freed ∧
    (runOps fsEmpty [Op.refill, Op.close] (initEngine [])).stack.getLast? = some .mainRef :=
  ⟨(c4_amended fsEmpty [] [Op.refill, Op.close]).1,
   (c4_amended fsEmpty [] [Op.refill, Op.close]).2 (by decide)⟩

/-- Helper: the termination fixup always yields a newline-terminated
buffer. -/
theorem ensureNL_getLast (l : List Char) : (ensureNL l).getLast? = some '\n' := by
  unfold ensureNL
  split
  · assumption
  · exact List.getLast?_concat l

/-- Helper: the termination fixup never yields an empty buffer. -/
theorem ensureNL_ne_nil (l : List Char) : ensureNL l ≠ [] := by
  unfold ensureNL
  split
  · intro h
    subst h
    simp_all
  · simp

/-- Helper for C9: every successful run of the GetLine loop leaves the
line buffer newline-terminated, resets the cursor, clears the lookahead
token, and increments the line counter of the frame (top of the resulting
stack) that produced the line. -/
theorem getLineAux_success (stk : List Frame) :
    ∀ s s' : EngineState, GetLineAux s stk = (true, s') →
    s'.scan.savedToken = .T_NONE ∧ s'.scan.pos = 0 ∧
    s'.scan.line.getLast? = some '\n' ∧ s'.scan.line ≠ [] ∧
    (s'.stack.head? = some .mainRef →
      s'.mainLineNumber = s.mainLineNumber + 1 ∧
      ∃ raw, s.mainLines = raw :: s'.mainLines ∧ s'.scan.line = ensureNL raw) ∧
    (∀ n ln ls, s'.stack.head? = some (.fileF n ln ls) →
      ∃ raw k, ln = k + 1 ∧ Frame.fileF n k (raw :: ls) ∈ stk ∧
        s'.scan.line = ensureNL raw) := by
  induction stk with
  | nil =>
    intro s s' h
    simp [GetLineAux] at h
  | cons f rest ih =>
    intro s s' h
    cases f with
    | mainRef =>
      cases hml : s.mainLines with
      | cons l ls =>
        simp only [GetLineAux, hml] at h
        have h2 := congrArg Prod.snd h
        dsimp at h2
        subst h2
        refine ⟨rfl, rfl, ensureNL_getLast l, ensureNL_ne_nil l, ?_, ?_⟩
        · intro _
          exact ⟨rfl, l, rfl, rfl⟩
        · intro n ln ls2 hh
          dsimp at hh
          exact Frame.noConfusion (Option.some.inj hh)
      | nil =>
        simp only [GetLineAux, hml] at h
        rw [← hml]
        obtain ⟨h1, h2, h3, h4, h5, h6⟩ := ih s s' h
        refine ⟨h1, h2, h3, h4, h5, ?_⟩
        intro n ln ls2 hh
        obtain ⟨raw, k, hk, hmem, hline⟩ := h6 n ln ls2 hh
        exact ⟨raw, k, hk, List.mem_cons_of_mem _ hmem, hline⟩
    | fileF n0 ln0 ls0 =>
      cases hls : ls0 with
      | cons l ls2 =>
        subst hls
        simp only [GetLineAux] at h
        have h2 := congrArg Prod.snd h
        dsimp at h2
        subst h2
        refine ⟨rfl, rfl, ensureNL_getLast l, ensureNL_ne_nil l, ?_, ?_⟩
        · intro hh
          dsimp at hh
          exact Frame.noConfusion (Option.some.inj hh)
        · intro n ln ls2b hh
          dsimp at hh
          have := Option.some.inj hh
          injection this with e1 e2 e3
          subst e1
          subst e3
          exact ⟨l, ln0, e2.symm, List.mem_cons_self _ _, rfl⟩
      | nil =>
        subst hls
        simp only [GetLineAux] at h
        obtain ⟨h1, h2, h3, h4, h5, h6⟩ := ih _ s' h
        refine ⟨h1, h2, h3, h4, h5, ?_⟩
        intro n ln ls2 hh
        obtain ⟨raw, k, hk, hmem, hline⟩ := h6 n ln ls2 hh
        exact ⟨raw, k, hk, List.mem_cons_of_mem _ hmem, hline⟩

/-- C9: every successful line refill leaves the line buffer terminated
with a newline character (and nonempty), clears the saved lookahead token
and resets the cursor; the frame that produced the line, the top of the
resulting stack, has its line counter incremented by one (the frame is
the main frame with its counter stepped from the pre-state, or a file
frame that occurred on the pre-state stack with the predecessor
counter). -/
theorem c9_getline_postcondition (s s' : EngineState) (h : GetLine s = (true, s')) :
    s'.scan.savedToken = .T_NONE ∧ s'.scan.pos = 0 ∧
    s'.scan.line.getLast? = some '\n' ∧ s'.scan.line ≠ [] ∧
    (s'.stack.head? = some .mainRef →
      s'.mainLineNumber = s.mainLineNumber + 1 ∧
      ∃ raw, s.mainLines = raw :: s'.mainLines ∧ s'.scan.line = ensureNL raw) ∧
    (∀ n ln ls, s'.stack.head? = some (.fileF n ln ls) →
      ∃ raw k, ln = k + 1 ∧ Frame.fileF n k (raw :: ls) ∈ s.stack ∧
        s'.scan.line = ensureNL raw) :=
  getLineAux_success s.stack s s' h

/-- Witness for C9 at a concrete one-line main input. -/
theorem c9_getline_postcondition_witness :
    ((GetLine c9fix).2.scan.savedToken = .T_NONE ∧ (GetLine c9fix).2.scan.pos = 0 ∧
    (GetLine c9fix).2.scan.line.getLast? = some '\n' ∧ (GetLine c9fix).2.scan.line ≠ [] ∧
    ((GetLine c9fix).2.stack.head? = some .mainRef →
      (GetLine c9fix).2.mainLineNumber = c9fix.mainLineNumber + 1 ∧
      ∃ raw, c9fix.mainLines = raw :: (GetLine c9fix).2.mainLines ∧
        (GetLine c9fix).2.scan.line = ensureNL raw) ∧
    (∀ n ln ls, (GetLine c9fix).2.stack.head? = some (.fileF n ln ls) →
      ∃ raw k, ln = k + 1 ∧ Frame.fileF n k (raw :: ls) ∈ c9fix.stack ∧
        (GetLine c9fix).2.scan.line = ensureNL raw)) :=
  c9_getline_postcondition c9fix (GetLine c9fix).2 (by decide)

/-- C10: in a character literal the escape mapping is applied to the first
character after the opening quote without a backslash introducer: the
literals quote n quote, quote r quote, quote t quote decode to 10, 13, 9,
and any other single character decodes to its own code point, yielding a
numeric token, provided the next character is the closing single quote.
The hypothesis excluding the NUL character only marks the boundary of the
embedding: a NUL inside the C line buffer would terminate the buffer, so
no reachable line contains one. -/
theorem c10_char_literal :
    (tokOf (NextToken (mkScan "'n'\n")) = some .T_NUMBER ∧
     valOf (NextToken (mkScan "'n'\n")) = some 10 ∧
     tokOf (NextToken (mkScan "'r'\n")) = some .T_NUMBER ∧
     valOf (NextToken (mkScan "'r'\n")) = some 13 ∧
     tokOf (NextToken (mkScan "'t'\n")) = some .T_NUMBER ∧
     valOf (NextToken (mkScan "'t'\n")) = some 9) ∧
    (∀ (s : ScanState) (ch : Char) (rest : List Char),
      s.line = '\'' :: ch :: '\'' :: rest → s.pos = 1 →
      ch ≠ 'n' → ch ≠ 'r' → ch ≠ 't' → ch ≠ Char.ofNat 0 →
      CharToken s = .ok (.T_NUMBER, { s with pos := 3, token := [ch], value := ch.toNat })) := by
  constructor
  · decide
  · intro s ch rest hline hpos hn hr ht _h0
    unfold CharToken LiteralChar XGetC
    rw [hline, hpos]
    simp only [List.get?]
    rw [if_neg hn, if_neg hr, if_neg ht]
    simp only [List.get?]
    simp

/-- Witness for C10: the general part applied to the concrete character
literal quote x quote. -/
theorem c10_char_literal_witness :
    CharToken c10s = .ok (.T_NUMBER, { c10s with pos := 3, token := ['x'], value := 120 }) :=
  c10_char_literal.2 c10s 'x' ['\n'] rfl rfl (by decide) (by decide) (by decide) (by decide)

/-- Helper: a cons decomposition of the dropped suffix gives the character
at the cursor. -/
theorem drop_get? (line : List Char) (pos : Nat) (c : Char) (t : List Char)
    (h : line.drop pos = c :: t) : line.get? pos = some c := by
  have h0 : (line.drop pos).get? 0 = some c := by rw [h]; rfl
  rw [List.get?_drop] at h0
  simpa using h0

/-- Helper: stepping the cursor drops the head of the suffix. -/
theorem drop_succ (line : List Char) (pos : Nat) (c : Char) (t : List Char)
    (h : line.drop pos = c :: t) : line.drop (pos + 1) = t := by
  have h2 := List.tail_drop line pos
  rw [h] at h2
  exact h2.symm

/-- Helper: the fuel of the scanning wrappers is the length of the
remaining suffix. -/
theorem drop_len (line : List Char) (pos : Nat) (xs : List Char)
    (h : line.drop pos = xs) : line.length - pos = xs.length := by
  rw [← h, List.length_drop]

/-- Helper: reading one plain (non-slash) character through GetChar
outside a comment just delivers the character and steps the cursor. -/
theorem getChar_simple (line : List Char) (pos : Nat) (c : Char)
    (h : line.get? pos = some c) (hc : c ≠ '/') :
    GetChar line pos false = (some c, pos + 1, false) := by
  have hlt : pos < line.length := (List.get?_eq_some.mp h).1
  obtain ⟨k, hk⟩ : ∃ k, line.length - pos = k + 1 := ⟨line.length - pos - 1, by omega⟩
  unfold GetChar GetCharAux
  simp only [Bool.false_eq_true, if_false]
  rw [hk]
  simp only [GetCharGo, XGetC, h]
  rw [if_neg hc]

/-- Helper for C8: the decimal collection loop consumes a run of digits
and underscores up to a terminator, collecting exactly the digits (the
underscores are skipped as non-significant), and stops with the cursor on
the terminator. -/
theorem numGo_run (line : List Char) (ds : List Char) :
    ∀ (pos : Nat) (acc : List Char) (term : Char) (rest : List Char),
    line.drop pos = ds ++ term :: rest →
    (∀ c ∈ ds, isDigitC c = true ∨ c = '_') →
    isDigitC term = false → term ≠ '_' → term ≠ '/' →
    NumGo line (line.length - pos) pos false acc =
      (acc ++ ds.filter isDigitC, pos + ds.length, false) := by
  induction ds with
  | nil =>
    intro pos acc term rest hdrop _ hterm hterm2 hterm3
    have hget := drop_get? _ _ _ _ hdrop
    rw [drop_len _ _ _ hdrop]
    simp only [List.length_cons, NumGo]
    simp only [getChar_simple _ _ _ hget hterm3]
    rw [if_neg (by simp [hterm]), if_neg hterm2]
    simp
  | cons d ds2 ih =>
    intro pos acc term rest hdrop hclass hterm hterm2 hterm3
    rw [List.cons_append] at hdrop
    have hget := drop_get? _ _ _ _ hdrop
    have hd := hclass d (List.mem_cons_self _ _)
    have hdslash : d ≠ '/' := by
      rcases hd with hd | hd
      · intro he; subst he; exact absurd hd (by decide)
      · intro he; subst he; exact absurd hd (by decide)
    have hdrop2 := drop_succ _ _ _ _ hdrop
    have hlen2 := drop_len _ _ _ hdrop2
    rw [drop_len _ _ _ hdrop]
    simp only [List.length_cons, NumGo]
    simp only [getChar_simple _ _ _ hget hdslash]
    have hcls2 : ∀ c ∈ ds2, isDigitC c = true ∨ c = '_' :=
      fun c hc => hclass c (List.mem_cons_of_mem _ hc)
    rcases hd with hd | hd
    · rw [if_pos hd, ← hlen2,
        ih (pos + 1) (acc ++ [d]) term rest hdrop2 hcls2 hterm hterm2 hterm3]
      have e1 : acc ++ [d] ++ ds2.filter isDigitC = acc ++ (d :: ds2).filter isDigitC := by
        simp [List.filter_cons, hd]
      have e2 : pos + 1 + ds2.length = pos + (ds2.length + 1) := by omega
      rw [e1, e2]
    · subst hd
      show NumGo line (ds2 ++ term :: rest).length (pos + 1) false acc =
        (acc ++ List.filter isDigitC ('_' :: ds2), pos + (ds2.length + 1), false)
      rw [← hlen2, ih (pos + 1) acc term rest hdrop2 hcls2 hterm hterm2 hterm3]
      have hv : isDigitC '_' = false := by decide
      have e1 : List.filter isDigitC ('_' :: ds2) = ds2.filter isDigitC := by
        simp [List.filter_cons, hv]
      have e2 : pos + 1 + ds2.length = pos + (ds2.length + 1) := by omega
      rw [e1, e2]

/-- Helper for C8: the hexadecimal collection loop, same shape as the
decimal one. -/
theorem hexGo_run (line : List Char) (ds : List Char) :
    ∀ (pos : Nat) (acc : List Char) (term : Char) (rest : List Char),
    line.drop pos = ds ++ term :: rest →
    (∀ c ∈ ds, isXDigitC c = true ∨ c = '_') →
    isXDigitC term = false → term ≠ '_' → term ≠ '/' →
    HexGo line (line.length - pos) pos false acc =
      (acc ++ ds.filter isXDigitC, pos + ds.length, false) := by
  induction ds with
  | nil =>
    intro pos acc term rest hdrop _ hterm hterm2 hterm3
    have hget := drop_get? _ _ _ _ hdrop
    rw [drop_len _ _ _ hdrop]
    simp only [List.length_cons, HexGo]
    simp only [getChar_simple _ _ _ hget hterm3]
    rw [if_neg (by simp [hterm]), if_neg hterm2]
    simp
  | cons d ds2 ih =>
    intro pos acc term rest hdrop hclass hterm hterm2 hterm3
    rw [List.cons_append] at hdrop
    have hget := drop_get? _ _ _ _ hdrop
    have hd := hclass d (List.mem_cons_self _ _)
    have hdslash : d ≠ '/' := by
      rcases hd with hd | hd
      · intro he; subst he; exact absurd hd (by decide)
      · intro he; subst he; exact absurd hd (by decide)
    have hdrop2 := drop_succ _ _ _ _ hdrop
    have hlen2 := drop_len _ _ _ hdrop2
    rw [drop_len _ _ _ hdrop]
    simp only [List.length_cons, HexGo]
    simp only [getChar_simple _ _ _ hget hdslash]
    have hcls2 : ∀ c ∈ ds2, isXDigitC c = true ∨ c = '_' :=
      fun c hc => hclass c (List.mem_cons_of_mem _ hc)
    rcases hd with hd | hd
    · rw [if_pos hd, ← hlen2,
        ih (pos + 1) (acc ++ [d]) term rest hdrop2 hcls2 hterm hterm2 hterm3]
      have e1 : acc ++ [d] ++ ds2.filter isXDigitC = acc ++ (d :: ds2).filter isXDigitC := by
        simp [List.filter_cons, hd]
      have e2 : pos + 1 + ds2.length = pos + (ds2.length + 1) := by omega
      rw [e1, e2]
    · subst hd
      show HexGo line (ds2 ++ term :: rest).length (pos + 1) false acc =
        (acc ++ List.filter isXDigitC ('_' :: ds2), pos + (ds2.length + 1), false)
      rw [← hlen2, ih (pos + 1) acc term rest hdrop2 hcls2 hterm hterm2 hterm3]
      have hv : isXDigitC '_' = false := by decide
      have e1 : List.filter isXDigitC ('_' :: ds2) = ds2.filter isXDigitC := by
        simp [List.filter_cons, hv]
      have e2 : pos + 1 + ds2.length = pos + (ds2.length + 1) := by omega
      rw [e1, e2]

/-- Helper for C8: the binary collection loop, same shape as the decimal
one. -/
theorem binGo_run (line : List Char) (ds : List Char) :
    ∀ (pos : Nat) (acc : List Char) (term : Char) (rest : List Char),
    line.drop pos = ds ++ term :: rest →
    (∀ c ∈ ds, (c = '0' || c = '1') = true ∨ c = '_') →
    (term = '0' || term = '1') = false → term ≠ '_' → term ≠ '/' →
    BinGo line (line.length - pos) pos false acc =
      (acc ++ ds.filter (fun c => c = '0' || c = '1'), pos + ds.length, false) := by
  induction ds with
  | nil =>
    intro pos acc term rest hdrop _ hterm hterm2 hterm3
    have hget := drop_get? _ _ _ _ hdrop
    rw [drop_len _ _ _ hdrop]
    simp only [List.length_cons, BinGo]
    simp only [getChar_simple _ _ _ hget hterm3]
    rw [if_neg (by simp [hterm]), if_neg hterm2]
    simp
  | cons d ds2 ih =>
    intro pos acc term rest hdrop hclass hterm hterm2 hterm3
    rw [List.cons_append] at hdrop
    have hget := drop_get? _ _ _ _ hdrop
    have hd := hclass d (List.mem_cons_self _ _)
    have hdslash : d ≠ '/' := by
      rcases hd with hd | hd
      · intro he
        subst he
        simp at hd
      · intro he; subst he; exact absurd hd (by decide)
    have hdrop2 := drop_succ _ _ _ _ hdrop
    have hlen2 := drop_len _ _ _ hdrop2
    rw [drop_len _ _ _ hdrop]
    simp only [List.length_cons, BinGo]
    simp only [getChar_simple _ _ _ hget hdslash]
    have hcls2 : ∀ c ∈ ds2, (c = '0' || c = '1') = true ∨ c = '_' :=
      fun c hc => hclass c (List.mem_cons_of_mem _ hc)
    rcases hd with hd | hd
    · rw [if_pos hd, ← hlen2,
        ih (pos + 1) (acc ++ [d]) term rest hdrop2 hcls2 hterm hterm2 hterm3]
      have e1 : acc ++ [d] ++ ds2.filter (fun c => c = '0' || c = '1') =
          acc ++ (d :: ds2).filter (fun c => c = '0' || c = '1') := by
        simp [List.filter_cons, hd]
      have e2 : pos + 1 + ds2.length = pos + (ds2.length + 1) := by omega
      rw [e1, e2]
    · subst hd
      show BinGo line (ds2 ++ term :: rest).length (pos + 1) false acc =
        (acc ++ List.filter (fun c => c = '0' || c = '1') ('_' :: ds2),
          pos + (ds2.length + 1), false)
      rw [← hlen2, ih (pos + 1) acc term rest hdrop2 hcls2 hterm hterm2 hterm3]
      have hv : (('_' = '0' : Bool) || ('_' = '1' : Bool)) = false := by decide
      have e1 : List.filter (fun c => c = '0' || c = '1') ('_' :: ds2) =
          ds2.filter (fun c => c = '0' || c = '1') := by
        simp [List.filter_cons, hv]
      have e2 : pos + 1 + ds2.length = pos + (ds2.length + 1) := by omega
      rw [e1, e2]

/-- C8: numeric literals in all three bases skip underscore as a
non-significant separator and decode by standard base conversion of the
filtered digit sequence: concretely 0x1_F decodes to 31, 0b10_1 to 5 and
1_000 to 1000, each as a number token; and in general each of the three
collection functions, run on a maximal run of digits and underscores
followed by a terminator, produces a number token whose value is the base
conversion of the digits with the underscores removed. -/
theorem c8_numeric :
    (tokOf (NextToken (mkScan "0x1_F\n")) = some .T_NUMBER ∧
     valOf (NextToken (mkScan "0x1_F\n")) = some 31 ∧
     tokOf (NextToken (mkScan "0b10_1\n")) = some .T_NUMBER ∧
     valOf (NextToken (mkScan "0b10_1\n")) = some 5 ∧
     tokOf (NextToken (mkScan "1_000\n")) = some .T_NUMBER ∧
     valOf (NextToken (mkScan "1_000\n")) = some 1000) ∧
    (∀ (s : ScanState) (ch : Char) (ds : List Char) (term : Char) (rest : List Char),
      s.inComment = false → s.line.drop s.pos = ds ++ term :: rest →
      isDigitC ch = true →
      (∀ c ∈ ds, isDigitC c = true ∨ c = '_') →
      isDigitC term = false → term ≠ '_' → term ≠ '/' →
      NumberToken s ch =
        (.T_NUMBER, { s with
                      pos := s.pos + ds.length, inComment := false,
                      token := ch :: ds.filter isDigitC,
                      value := decodeBase 10 (ch :: ds.filter isDigitC) })) ∧
    (∀ (s : ScanState) (ds : List Char) (term : Char) (rest : List Char),
      s.inComment = false → s.line.drop s.pos = ds ++ term :: rest →
      (∀ c ∈ ds, isXDigitC c = true ∨ c = '_') →
      isXDigitC term = false → term ≠ '_' → term ≠ '/' →
      HexNumberToken s =
        (.T_NUMBER, { s with
                      pos := s.pos + ds.length, inComment := false,
                      token := ds.filter isXDigitC,
                      value := decodeBase 16 (ds.filter isXDigitC) })) ∧
    (∀ (s : ScanState) (ds : List Char) (term : Char) (rest : List Char),
      s.inComment = false → s.line.drop s.pos = ds ++ term :: rest →
      (∀ c ∈ ds, (c = '0' || c = '1') = true ∨ c = '_') →
      (term = '0' || term = '1') = false → term ≠ '_' → term ≠ '/' →
      BinaryNumberToken s =
        (.T_NUMBER, { s with
                      pos := s.pos + ds.length, inComment := false,
                      token := ds.filter (fun c => c = '0' || c = '1'),
                      value := decodeBase 2 (ds.filter (fun c => c = '0' || c = '1')) })) := by
  refine ⟨by decide, ?_, ?_, ?_⟩
  · intro s ch ds term rest hic hdrop hch hclass ht1 ht2 ht3
    unfold NumberToken
    rw [hic, numGo_run s.line ds s.pos [ch] term rest hdrop hclass ht1 ht2 ht3]
    dsimp only
    have hall : ∀ a ∈ [ch] ++ ds.filter isDigitC, isDigitC a = true := by
      intro a ha
      rcases List.mem_append.mp ha with h1 | h2
      · rw [List.mem_singleton.mp h1]; exact hch
      · exact List.of_mem_filter h2
    have htw : ([ch] ++ ds.filter isDigitC).takeWhile isDigitC = [ch] ++ ds.filter isDigitC :=
      List.takeWhile_eq_self_iff.mpr hall
    unfold atolC
    rw [htw]
    rfl
  · intro s ds term rest hic hdrop hclass ht1 ht2 ht3
    unfold HexNumberToken
    rw [hic, hexGo_run s.line ds s.pos [] term rest hdrop hclass ht1 ht2 ht3]
    dsimp only
    have hall : ∀ a ∈ [] ++ ds.filter isXDigitC, isXDigitC a = true := by
      intro a ha
      rcases List.mem_append.mp ha with h1 | h2
      · cases h1
      · exact List.of_mem_filter h2
    have htw : ([] ++ ds.filter isXDigitC).takeWhile isXDigitC = [] ++ ds.filter isXDigitC :=
      List.takeWhile_eq_self_iff.mpr hall
    unfold strtoulC
    rw [htw]
    rfl
  · intro s ds term rest hic hdrop hclass ht1 ht2 ht3
    unfold BinaryNumberToken
    rw [hic, binGo_run s.line ds s.pos [] term rest hdrop hclass ht1 ht2 ht3]
    dsimp only
    have hall : ∀ a ∈ ([] : List Char) ++ ds.filter (fun c => c = '0' || c = '1'),
        ((a = '0' || a = '1') = true) := by
      intro a ha
      rcases List.mem_append.mp ha with h1 | h2
      · cases h1
      · have h3 := List.of_mem_filter h2
        exact h3
    have htw : ([] ++ ds.filter (fun c => c = '0' || c = '1')).takeWhile
          (fun c => c = '0' || c = '1') = [] ++ ds.filter (fun c => c = '0' || c = '1') :=
      List.takeWhile_eq_self_iff.mpr hall
    unfold strtoulC
    rw [htw]
    rfl

/-- Witness for C8: the general decimal part applied to the concrete
literal 1_2 terminated by the line end. -/
theorem c8_numeric_witness :
    NumberToken c8s '1' =
      (.T_NUMBER, { c8s with
                    pos := 3, inComment := false, token := ['1', '2'],
                    value := decodeBase 10 ['1', '2'] }) :=
  c8_numeric.2.1 c8s '1' ['_', '2'] '\n' [] rfl rfl (by decide) (by decide) (by decide)
    (by decide) (by decide)

/-- Helper for C7: LiteralChar consumes exactly one character when one is
available. -/
theorem literalChar_snd (line : List Char) (pos : Nat) (c : Char)
    (h : line.get? pos = some c) : (LiteralChar line pos).2 = pos + 1 := by
  unfold LiteralChar XGetC
  rw [h]
  dsimp only
  by_cases hn : c = 'n'
  · rw [if_pos hn]
  · rw [if_neg hn]
    by_cases hr : c = 'r'
    · rw [if_pos hr]
    · rw [if_neg hr]
      by_cases ht : c = 't'
      · rw [if_pos ht]
      · rw [if_neg ht]

/-- Helper for C7: when the string collection loop fails with the
unterminated-string condition, no unescaped closing quote occurs before
the end of the line. -/
theorem stringGo_unterminated_noClose (line : List Char) :
    ∀ (k pos : Nat) (acc : List Char) (len : Nat),
    StringGo line k pos acc len = .error "unterminated string" →
    specUnescCloseGo line k pos = false := by
  intro k
  induction k with
  | zero => intro pos acc len _; rfl
  | succ k ih =>
    intro pos acc len h
    cases hget : line.get? pos with
    | none =>
      have hgetE : getElem? line pos = none :=
        (List.get?_eq_getElem? line pos).symm.trans hget
      simp [specUnescCloseGo, hgetE]
    | some ch =>
      simp only [StringGo, XGetC, hget] at h
      simp only [specUnescCloseGo, hget]
      by_cases hq : ch = '"'
      · rw [if_pos hq] at h
        exact absurd h (by simp)
      · rw [if_neg hq] at h
        rw [if_neg hq]
        by_cases hlen : len + 1 > MAXTOKEN
        · rw [if_pos hlen] at h
          exact absurd h (by decide)
        · rw [if_neg hlen] at h
          by_cases hb : ch = '\\'
          · rw [if_pos hb] at h
            rw [if_pos hb]
            cases hget2 : line.get? (pos + 1) with
            | none => simp only [hget2]
            | some c2 =>
              simp only [hget2]
              have hc2 := literalChar_snd line (pos + 1) c2 hget2
              rw [hc2] at h
              exact ih (pos + 1 + 1) _ (len + 1) h
          · rw [if_neg hb] at h
            rw [if_neg hb]
            exact ih (pos + 1) _ (len + 1) h

/-- Helper for C7: when no unescaped closing quote occurs before the end
of the line and the remaining input fits in the spelling-buffer capacity,
the string collection loop fails with the unterminated-string
condition. -/
theorem noClose_stringGo_unterminated (line : List Char) :
    ∀ (k pos : Nat) (acc : List Char) (len : Nat),
    specUnescCloseGo line k pos = false → len + k ≤ MAXTOKEN →
    StringGo line k pos acc len = .error "unterminated string" := by
  intro k
  induction k with
  | zero => intro pos acc len _ _; rfl
  | succ k ih =>
    intro pos acc len hspec hcap
    cases hget : line.get? pos with
    | none =>
      have hgetE : getElem? line pos = none :=
        (List.get?_eq_getElem? line pos).symm.trans hget
      simp [StringGo, XGetC, hgetE]
    | some ch =>
      simp only [specUnescCloseGo, hget] at hspec
      simp only [StringGo, XGetC, hget]
      have hq : ¬ (ch = '"') := by
        intro he
        rw [if_pos he] at hspec
        exact absurd hspec (by decide)
      rw [if_neg hq] at hspec
      rw [if_neg hq]
      have hnl : ¬ (len + 1 > MAXTOKEN) := by omega
      rw [if_neg hnl]
      by_cases hb : ch = '\\'
      · rw [if_pos hb] at hspec
        rw [if_pos hb]
        cases hget2 : line.get? (pos + 1) with
        | none =>
          have hget2E : getElem? line (pos + 1) = none :=
            (List.get?_eq_getElem? line (pos + 1)).symm.trans hget2
          have hlc : LiteralChar line (pos + 1) = ('\\', pos + 1) := by
            unfold LiteralChar XGetC
            rw [hget2]
          rw [hlc]
          cases k with
          | zero => rfl
          | succ k2 => simp [StringGo, XGetC, hget2E]
        | some c2 =>
          simp only [hget2] at hspec
          have hc2 := literalChar_snd line (pos + 1) c2 hget2
          rw [hc2]
          exact ih (pos + 1 + 1) _ (len + 1) hspec (by omega)
      · rw [if_neg hb] at hspec
        rw [if_neg hb]
        exact ih (pos + 1) _ (len + 1) hspec (by omega)

/-- Helper for C7: the string collection started the way StringToken
starts it fails with the unterminated-string condition exactly when no
unescaped closing quote occurs before the end of the line, provided the
remaining line fits in the spelling-buffer capacity. -/
theorem stringScan_unterminated_iff (line : List Char) (pos : Nat)
    (hcap : line.length ≤ pos + MAXTOKEN) :
    (StringScan line pos = .error "unterminated string") ↔
      specUnescClose line pos = false := by
  constructor
  · exact stringGo_unterminated_noClose line (line.length - pos) pos [] 0
  · intro h
    exact noClose_stringGo_unterminated line (line.length - pos) pos [] 0 h (by omega)

/-- C7: the claim as frozen states an equivalence: the recognizer fails
with the unterminated-string condition if and only if the line ends
before an unescaped closing double quote.  The reverse direction fails on
the code: a string body longer than the spelling-buffer capacity with no
closing quote aborts with the token-too-long condition instead, although
the line ends before an unescaped closing quote. -/
theorem c7_counterexample :
    errOf (StringToken { mkScan (String.mk c7line) with pos := 1 }) =
      some "String too long" ∧
    specUnescClose c7line 1 = false := by
  decide

/-- C7 (amended): string escapes n, r, t decode to newline, carriage
return, tab; a backslash immediately before end of input decodes to a
literal backslash; any other character after a backslash passes through
as-is; the literal a backslash n b decodes to the characters a, newline,
b; the literal a backslash at end of line is reported as unterminated; a
failure with the unterminated-string condition implies the line ends
before an unescaped closing quote, and the two are equivalent whenever
the remaining line fits within the spelling-buffer capacity (beyond it
the token-too-long condition takes precedence). -/
theorem c7_amended :
    (∀ (line : List Char) (pos : Nat), line.get? pos = some 'n' →
      LiteralChar line pos = ('\n', pos + 1)) ∧
    (∀ (line : List Char) (pos : Nat), line.get? pos = some 'r' →
      LiteralChar line pos = ('\r', pos + 1)) ∧
    (∀ (line : List Char) (pos : Nat), line.get? pos = some 't' →
      LiteralChar line pos = ('\t', pos + 1)) ∧
    (∀ (line : List Char) (pos : Nat), line.get? pos = none →
      LiteralChar line pos = ('\\', pos)) ∧
    (∀ (line : List Char) (pos : Nat) (c : Char), line.get? pos = some c →
      c ≠ 'n' → c ≠ 'r' → c ≠ 't' → LiteralChar line pos = (c, pos + 1)) ∧
    (tokOf (NextToken (mkScan "\"a\\nb\"\n")) = some .T_STRING ∧
     spellOf (NextToken (mkScan "\"a\\nb\"\n")) = some ['a', '\n', 'b']) ∧
    (errOf (NextToken (mkScan "\"a\\\n")) = some "unterminated string") ∧
    (∀ (line : List Char) (pos : Nat),
      StringScan line pos = .error "unterminated string" →
      specUnescClose line pos = false) ∧
    (∀ (line : List Char) (pos : Nat), line.length ≤ pos + MAXTOKEN →
      (StringScan line pos = .error "unterminated string" ↔
        specUnescClose line pos = false)) := by
  refine ⟨?_, ?_, ?_, ?_, ?_, by decide, by decide, ?_, ?_⟩
  · intro line pos h
    unfold LiteralChar XGetC
    rw [h]
    rfl
  · intro line pos h
    unfold LiteralChar XGetC
    rw [h]
    rfl
  · intro line pos h
    unfold LiteralChar XGetC
    rw [h]
    rfl
  · intro line pos h
    unfold LiteralChar XGetC
    rw [h]
  · intro line pos c h hn hr ht
    unfold LiteralChar XGetC
    rw [h]
    dsimp only
    rw [if_neg hn, if_neg hr, if_neg ht]
  · exact fun line pos =>
      stringGo_unterminated_noClose line (line.length - pos) pos [] 0
  · exact fun line pos hcap => stringScan_unterminated_iff line pos hcap

/-- Witness for C7 (amended): the escape-n part and the equivalence, each
at a concrete input. -/
theorem c7_amended_witness :
    LiteralChar ['n'] 0 = ('\n', 1) ∧
    (StringScan "ab\n".toList 0 = .error "unterminated string" ↔
      specUnescClose "ab\n".toList 0 = false) :=
  ⟨c7_amended.1 ['n'] 0 rfl,
   c7_amended.2.2.2.2.2.2.2.2 "ab\n".toList 0 (by decide)⟩

/-- Witness for C6 at a concrete state and the empty host file system. -/
theorem c6_push_open_failure_witness :
    PushFile fsEmpty (initEngine []) "B" =
      (false, { initEngine [] with includedFiles := ["B"] }) ∧
    (PushFile fsEmpty (initEngine []) "B").2.stack = (initEngine []).stack ∧
    (PushFile fsEmpty (initEngine []) "B").2.stack.head? = (initEngine []).stack.head? ∧
    "B" ∈ (PushFile fsEmpty (initEngine []) "B").2.includedFiles :=
  c6_push_open_failure fsEmpty (initEngine []) "B" (by decide) rfl

end XBasic
